import Mathlib

/-!
Shallow embedding of the rate-resolution core of `valutatrade_hub`
(parser_service/updater.py, parser_service/storage.py, core/utils.py,
core/usecases.py), together with theorems settling the frozen claims
about the update cycle, the cache/history storage and the rate resolver.

Modelling conventions:
* Python floats are modelled as rationals (`ℚ`); all arithmetic in the
  relevant code paths is +, -, * and /.
* Python dicts keyed by strings are modelled as association lists
  (`List (String × α)`) with first-match lookup and replace-in-place
  insertion, which matches dict semantics on the unique-key lists the
  code builds.
* ISO timestamp strings are abstracted by `TimestampVal`: a value is
  absent (`None`), an unparseable string, or a string parsing to an
  absolute time in epoch seconds (`ℚ`).
* Cache pair entries are modelled in their structured form
  (`{"rate": .., "updated_at": .., "source": ..}`), the shape produced
  by `RatesStorage.save_rates_cache`; the source's `isinstance(.., dict)`
  fallbacks for bare-float entries always take the dict branch here.
* Wall-clock bookkeeping fields of the update report (`started_at`,
  `completed_at`, `duration_ms`) and the optional `meta` field of
  history records are not referenced by any claim and are omitted.
-/

set_option autoImplicit false

/-- Python `dict.get(key)` on an association list: first entry wins. -/
def alGet {α : Type} (k : String) : List (String × α) → Option α
  | [] => none
  | (k', v) :: rest => if k' = k then some v else alGet k rest

/-- Python `d[key] = value`: replace the value of an existing key in
place, otherwise append the new entry at the end. -/
def alInsert {α : Type} (k : String) (v : α) : List (String × α) → List (String × α)
  | [] => [(k, v)]
  | (k', v') :: rest => if k' = k then (k, v) :: rest else (k', v') :: alInsert k v rest

/-- Python `d.update(new)`: insert every entry of `new` into `d`, in order. -/
def dictUpdate {α : Type} (d new : List (String × α)) : List (String × α) :=
  new.foldl (fun acc kv => alInsert kv.1 kv.2 acc) d

/-- Python `str.upper()` restricted to the ASCII codes the program uses. -/
def pyUpper (s : String) : String :=
  String.mk (s.data.map Char.toUpper)

/-- Whitespace characters stripped by Python `str.strip()` (ASCII subset). -/
def isPyWs (c : Char) : Bool :=
  c = ' ' ∨ c = '\t' ∨ c = '\n' ∨ c = '\r'

/-- Python `str.strip()` (ASCII whitespace). -/
def pyStrip (s : String) : String :=
  String.mk (((s.data.dropWhile isPyWs).reverse.dropWhile isPyWs).reverse)

/-- Truth value of an ISO-8601 timestamp field as the code sees it:
the Python value is `None`, a string `datetime.fromisoformat` rejects,
or a string parsing to an absolute time `t` in epoch seconds. -/
inductive TimestampVal where
  | absent
  | unparseable
  | parsed (t : ℚ)
  deriving DecidableEq, Repr

/-- Embedding of `core/utils.py parse_datetime` on `TimestampVal`:
`None` stays `None`, a bad string yields `None`, otherwise the parsed
absolute time. -/
def parse_datetime : TimestampVal → Option ℚ
  | .absent => none
  | .unparseable => none
  | .parsed t => some t

/-- Embedding of `core/utils.py is_rate_fresh`: `False` for a missing
or unparseable `updated_at`, otherwise the age `now - updated_at`
(in seconds) must be strictly below the TTL. -/
def is_rate_fresh (now : ℚ) (updated_at : TimestampVal) (ttl_seconds : ℚ) : Bool :=
  match updated_at with
  | .absent => false
  | v =>
    match parse_datetime v with
    | none => false
    | some t => decide (now - t < ttl_seconds)

/-- Entry of the cache's `pairs` map as written by the parser service:
`{"rate": float, "updated_at": iso-string, "source": string}`. -/
structure PairEntry where
  rate : ℚ
  updated_at : TimestampVal
  source : String
  deriving DecidableEq, Repr

/-- Triangulation through USD, the final block of
`core/utils.py calculate_rate`: when neither side is USD, fetch the
`FROM_USD` and `TO_USD` legs and return their quotient when both are
present and truthy (non-zero). -/
def triangulate_usd (from_code to_code : String) (rates : List (String × PairEntry)) : Option ℚ :=
  if from_code ≠ "USD" ∧ to_code ≠ "USD" then
    match alGet (from_code ++ "_USD") rates, alGet (to_code ++ "_USD") rates with
    | some from_data, some to_data =>
      if from_data.rate ≠ 0 ∧ to_data.rate ≠ 0 then
        some (from_data.rate / to_data.rate)
      else
        none
    | some _, none => none
    | none, some _ => none
    | none, none => none
  else
    none

/-- Embedding of `core/utils.py calculate_rate`: trivial case, direct
pair, reverse pair (inverted when its rate is truthy, else fall
through), then triangulation through USD. -/
def calculate_rate (from0 to0 : String) (rates : List (String × PairEntry)) : Option ℚ :=
  let from_code := pyUpper from0
  let to_code := pyUpper to0
  if from_code = to_code then some 1
  else
    match alGet (from_code ++ "_" ++ to_code) rates with
    | some rate_data => some rate_data.rate
    | none =>
      match alGet (to_code ++ "_" ++ from_code) rates with
      | some rate_data =>
        if rate_data.rate ≠ 0 then some (1 / rate_data.rate)
        else triangulate_usd from_code to_code rates
      | none => triangulate_usd from_code to_code rates

/-- Codes preinstalled in `core/currencies.py _CURRENCY_REGISTRY`. -/
def CURRENCY_REGISTRY : List String :=
  ["USD", "EUR", "GBP", "RUB", "JPY", "CNY", "CHF", "CAD", "AUD",
   "BTC", "ETH", "SOL", "XRP", "ADA", "DOGE", "LTC"]

/-- Failure modes of `RatesService.get_rate` (core/exceptions.py):
`ValidationError` from code validation, `CurrencyNotFoundError` from the
registry lookup, and `ApiRequestError` for an unavailable rate; the
latter message names both requested codes. -/
inductive GetRateError where
  | validationError (code : String)
  | currencyNotFound (code : String)
  | rateUnavailable (from_code to_code : String)
  deriving DecidableEq, Repr

/-- Embedding of `core/utils.py validate_currency_code`: empty or
blank input is rejected, the code is uppercased and stripped, and the
result must match `^[A-Z]{2,5}$`. -/
def validate_currency_code (code : String) : Except GetRateError String :=
  if (pyStrip code).data.isEmpty then .error (.validationError code)
  else
    let c := pyStrip (pyUpper code)
    if 2 ≤ c.data.length ∧ c.data.length ≤ 5 ∧ c.data.all (fun ch => 'A' ≤ ch ∧ ch ≤ 'Z') then
      .ok c
    else
      .error (.validationError c)

/-- Result dictionary returned by `RatesService.get_rate`. The identity
branch returns no `source` key, modelled as `none`. -/
structure RateResult where
  from_code : String
  to_code : String
  rate : ℚ
  reverse_rate : Option ℚ
  updated_at : TimestampVal
  source : Option String
  fresh : Bool
  deriving DecidableEq, Repr

/-- Cache document `rates.json`: the `pairs` map, the `last_refresh`
timestamp and the label of the last writer (absent until first write). -/
structure CacheDoc where
  pairs : List (String × PairEntry)
  last_refresh : TimestampVal
  source : Option String
  deriving DecidableEq, Repr

/-- Triangulation tail of `RatesService.get_rate` (usecases.py lines
361-374): call `calculate_rate` and, when the result is truthy, report
it with `source = "calculated"` and `fresh = True`; otherwise raise
`ApiRequestError` naming both codes. -/
def get_rate_triangulated (doc : CacheDoc) (from_code to_code : String) : Except GetRateError RateResult :=
  match calculate_rate from_code to_code doc.pairs with
  | some r =>
    if r ≠ 0 then
      .ok ⟨from_code, to_code, r, some (1 / r), doc.last_refresh, some "calculated", true⟩
    else
      .error (.rateUnavailable from_code to_code)
  | none => .error (.rateUnavailable from_code to_code)

/-- Lookup part of `RatesService.get_rate` after validation and
registry checks: identity, direct pair, reverse pair with truthy rate,
then triangulation. -/
def get_rate_resolve (doc : CacheDoc) (from_code to_code : String) (now ttl : ℚ) :
    Except GetRateError RateResult :=
  if from_code = to_code then
    .ok ⟨from_code, to_code, 1, some 1, .parsed now, none, true⟩
  else
    match alGet (from_code ++ "_" ++ to_code) doc.pairs with
    | some rate_info =>
      .ok ⟨from_code, to_code, rate_info.rate,
           (if rate_info.rate ≠ 0 then some (1 / rate_info.rate) else none),
           rate_info.updated_at, some rate_info.source,
           is_rate_fresh now rate_info.updated_at ttl⟩
    | none =>
      match alGet (to_code ++ "_" ++ from_code) doc.pairs with
      | some reverse_info =>
        if reverse_info.rate ≠ 0 then
          .ok ⟨from_code, to_code, 1 / reverse_info.rate, some reverse_info.rate,
               reverse_info.updated_at, some reverse_info.source,
               is_rate_fresh now reverse_info.updated_at ttl⟩
        else
          get_rate_triangulated doc from_code to_code
      | none => get_rate_triangulated doc from_code to_code

/-- Embedding of `RatesService.get_rate` (core/usecases.py): validate
both codes, check them against the currency registry, then resolve
against the cache document. `now` is the current wall-clock time in
epoch seconds and `ttl` the configured `rates_ttl_seconds`. -/
def get_rate (doc : CacheDoc) (from0 to0 : String) (now ttl : ℚ) :
    Except GetRateError RateResult :=
  match validate_currency_code from0 with
  | .error e => .error e
  | .ok from_code =>
    match validate_currency_code to0 with
    | .error e => .error e
    | .ok to_code =>
      if CURRENCY_REGISTRY.contains from_code = false then
        .error (.currencyNotFound from_code)
      else if CURRENCY_REGISTRY.contains to_code = false then
        .error (.currencyNotFound to_code)
      else
        get_rate_resolve doc from_code to_code now ttl

/-- History record `exchange_rates.json` entry. The `id` field is
`none` when the key is absent or `None` in the Python dict; an empty
string is a present-but-falsy id. -/
structure HistoryRecord where
  id : Option String
  from_currency : String
  to_currency : String
  rate : ℚ
  timestamp : String
  source : String
  deriving DecidableEq, Repr

/-- Python truthiness of `record.get("id")`: false for a missing key,
`None`, or an empty string. -/
def truthyId : Option String → Bool
  | none => false
  | some s => !s.data.isEmpty

/-- Embedding of `RatesStorage.add_history_record`: when the record
carries a truthy `id` that already occurs in the history, nothing is
appended or written; otherwise the record is appended at the end. -/
def add_history_record (history : List HistoryRecord) (record : HistoryRecord) :
    List HistoryRecord :=
  if truthyId record.id ∧ history.any (fun existing => existing.id = record.id) then
    history
  else
    history ++ [record]

/-- Embedding of `RatesStorage.save_rates_cache`: load the current
document, overwrite each pair of `rates` with the new rate, the current
time and the source label, and store the document with a refreshed
`last_refresh` and `source`. `now` is `datetime.now()` in epoch seconds. -/
def save_rates_cache (cache : CacheDoc) (rates : List (String × ℚ)) (now : ℚ)
    (source : String) : CacheDoc :=
  let pairs := rates.foldl
    (fun ps pr => alInsert pr.1 ⟨pr.2, .parsed now, source⟩ ps) cache.pairs
  ⟨pairs, .parsed now, some source⟩

/-- Embedding of `RatesStorage.save_rates_to_history`: for every pair
whose key splits on `_` into exactly two parts, build a record with the
deterministic id `pair_timestamp` and ingest it through
`add_history_record`; malformed keys are skipped. `nowIso` is the
`datetime.utcnow().isoformat() + "Z"` string of the cycle. -/
def save_rates_to_history (history : List HistoryRecord) (rates : List (String × ℚ))
    (source : String) (nowIso : String) : List HistoryRecord :=
  rates.foldl
    (fun h pr =>
      match (pr.1.splitOn "_").map String.data with
      | [fromChars, toChars] =>
        add_history_record h
          ⟨some (pr.1 ++ "_" ++ nowIso), String.mk fromChars, String.mk toChars,
           pr.2, nowIso, source⟩
      | _ => h)
    history

/-- Point at which `RatesStorage._write_json` can fail: creating the
temporary file (before the `try` block), `json.dump` into it, the final
`os.replace`, or no failure at all. -/
inductive WriteOutcome where
  | ok
  | mkstempRaises
  | dumpRaises
  | replaceRaises
  deriving DecidableEq, Repr

/-- State of one backing file: its committed content (`none` before the
first write) and whether a staged temporary artifact is present. -/
structure FileState (α : Type) where
  content : Option α
  temp : Bool
  deriving DecidableEq, Repr

/-- Embedding of `RatesStorage._write_json`: stage the serialized data
in a fresh temporary file in the target directory, then `os.replace` it
onto the target. A failure before the `try` leaves everything as it
was; a failure inside the `try` (serialization/`os.replace`) unlinks
the temporary file and re-raises; only the final rename changes the
committed content. -/
def write_json {α : Type} (st : FileState α) (data : α) (outcome : WriteOutcome) :
    Except Unit Unit × FileState α :=
  match outcome with
  | .mkstempRaises => (.error (), st)
  | .dumpRaises => (.error (), ⟨st.content, false⟩)
  | .replaceRaises => (.error (), ⟨st.content, false⟩)
  | .ok => (.ok (), ⟨some data, false⟩)

/-- Source-name normalization used by the update loop:
`name.lower().replace("-", "").replace(" ", "")`. -/
def normalizeSourceName (s : String) : String :=
  String.mk ((s.data.map Char.toLower).filter (fun c => !(c = '-' ∨ c = ' ')))

instance {ε α : Type} [DecidableEq ε] [DecidableEq α] : DecidableEq (Except ε α) :=
  fun x y =>
    match x, y with
    | .ok a, .ok b =>
      decidable_of_iff (a = b) ⟨fun h => by rw [h], fun h => by injection h⟩
    | .error a, .error b =>
      decidable_of_iff (a = b) ⟨fun h => by rw [h], fun h => by injection h⟩
    | .ok _, .error _ => isFalse (fun h => Except.noConfusion h)
    | .error _, .ok _ => isFalse (fun h => Except.noConfusion h)

/-- One API client as the coordinator sees it: its `source_name` and
the outcome of `fetch_rates()` for this cycle — either a pair map or an
exception carrying the error message the loop records (both `except`
arms of the loop store the message, mark the source `ERROR` and clear
the success flag, differing only in message formatting). -/
structure ClientSpec where
  source_name : String
  fetch : Except String (List (String × ℚ))
  deriving DecidableEq, Repr

/-- Per-source entry of the report's `sources` mapping. -/
inductive SourceStatus where
  | ok (rates_count : Nat) (rates : List String)
  | err (msg : String)
  deriving DecidableEq, Repr

/-- Final value of the report's `success` field: the Python values
`True`, `False` and the string `"partial"`. -/
inductive SuccessFlag where
  | strue
  | sfalse
  | spartial
  deriving DecidableEq, Repr

/-- Update-cycle report (`results` dict of `run_update`), without the
wall-clock bookkeeping fields. -/
structure UpdateResult where
  success : SuccessFlag
  sources : List (String × SourceStatus)
  total_rates : Nat
  errors : List String
  deriving DecidableEq, Repr

/-- Combined state of the two backing stores the updater writes:
the `rates.json` cache document and the `exchange_rates.json` history. -/
structure StorageState where
  cache : CacheDoc
  history : List HistoryRecord
  deriving DecidableEq, Repr

/-- Loop accumulator of `run_update`: the merged `all_rates` map, the
per-source reports, the error list and the boolean `success` flag as
it stands during the loop. -/
structure LoopAcc where
  all_rates : List (String × ℚ)
  sources : List (String × SourceStatus)
  errors : List String
  ok : Bool
  deriving DecidableEq, Repr

/-- Filter step of the loop: with a truthy (non-empty) `sources`
argument, a client is processed only when its normalized name occurs in
the normalized filter; a `None` or empty filter selects every client. -/
def clientSelected (filter : Option (List String)) (c : ClientSpec) : Bool :=
  match filter with
  | none => true
  | some l =>
    if l.isEmpty then true
    else (l.map normalizeSourceName).contains (normalizeSourceName c.source_name)

/-- Body of the client loop of `run_update`: skip unselected clients;
merge a successful fetch into `all_rates` and record an `OK` report;
on failure record an `ERROR` report, append the message to `errors`
and set the success flag to `False`. -/
def processClient (filter : Option (List String)) (acc : LoopAcc) (c : ClientSpec) : LoopAcc :=
  if clientSelected filter c then
    match c.fetch with
    | .ok rates =>
      ⟨dictUpdate acc.all_rates rates,
       alInsert c.source_name (.ok rates.length (rates.map Prod.fst)) acc.sources,
       acc.errors, acc.ok⟩
    | .error msg =>
      ⟨acc.all_rates,
       alInsert c.source_name (.err msg) acc.sources,
       acc.errors ++ [c.source_name ++ ": " ++ msg], false⟩
  else
    acc

/-- Client loop of `run_update` over the configured clients. -/
def runClients (clients : List ClientSpec) (filter : Option (List String)) : LoopAcc :=
  clients.foldl (processClient filter) ⟨[], [], [], true⟩

/-- Embedding of `RatesUpdater.run_update`: run the client loop, and
only when the merged map is non-empty write it through
`save_rates_cache` and `save_rates_to_history` and set `total_rates`;
finally downgrade the flag to `"partial"` when rates were obtained but
errors occurred. Returns the report and the resulting storage state.
`now` is `datetime.now()` in epoch seconds and `nowIso` the UTC
timestamp string used for history ids. -/
def run_update (clients : List ClientSpec) (filter : Option (List String))
    (st : StorageState) (now : ℚ) (nowIso : String) : UpdateResult × StorageState :=
  let acc := runClients clients filter
  let st' :=
    if acc.all_rates.isEmpty then st
    else
      ⟨save_rates_cache st.cache acc.all_rates now "ParserService",
       save_rates_to_history st.history acc.all_rates "ParserService" nowIso⟩
  let total := if acc.all_rates.isEmpty then 0 else acc.all_rates.length
  let flag :=
    if ¬acc.all_rates.isEmpty ∧ ¬acc.errors.isEmpty then SuccessFlag.spartial
    else if acc.ok then SuccessFlag.strue
    else SuccessFlag.sfalse
  (⟨flag, acc.sources, total, acc.errors⟩, st')

/-- Python `Except.isOk` check used to state which clients succeeded. -/
def exceptIsOk {ε α : Type} : Except ε α → Bool
  | .ok _ => true
  | .error _ => false

/-- Claim C9: for every resolved rate with a parseable `updated_at`
timestamp, `is_rate_fresh` reports `true` if and only if
`now - updated_at` is strictly less than the TTL; in particular a rate
aged `TTL + 1` seconds is stale and a rate aged `TTL - 1` seconds is
fresh. -/
theorem c9_is_rate_fresh_strict (now t ttl : ℚ) :
    (is_rate_fresh now (.parsed t) ttl = true ↔ now - t < ttl)
    ∧ is_rate_fresh (t + (ttl + 1)) (.parsed t) ttl = false
    ∧ is_rate_fresh (t + (ttl - 1)) (.parsed t) ttl = true := by
  refine ⟨?_, ?_, ?_⟩
  · simp [is_rate_fresh, parse_datetime]
  · simp [is_rate_fresh, parse_datetime]
  · simp [is_rate_fresh, parse_datetime]

/-- Claim C3: when staging fails inside `_write_json` (the `json.dump`
into the temporary file raises), the exception propagates to the
caller, the temporary artifact is removed, and the committed on-disk
document is exactly what it was before the call. -/
theorem c3_write_json_staging_failure {α : Type} (st : FileState α) (data : α) :
    write_json st data .dumpRaises = (.error (), ⟨st.content, false⟩) := rfl

/-- Claim C7: appending a record whose truthy `id` already occurs in
the history is a no-op — the history is returned unchanged, so its
length and the original record's fields are preserved. -/
theorem c7_add_history_record_idempotent (history : List HistoryRecord)
    (record : HistoryRecord) (ht : truthyId record.id = true)
    (hdup : ∃ existing ∈ history, existing.id = record.id) :
    add_history_record history record = history := by
  unfold add_history_record
  rw [if_pos]
  refine ⟨ht, ?_⟩
  rw [List.any_eq_true]
  obtain ⟨e, he, hid⟩ := hdup
  exact ⟨e, he, by simp [hid]⟩

/-- Witness for C7: re-ingesting a record with the already-present id
`EUR_USD_t1`, even with different field values, leaves the one-record
history unchanged. -/
theorem c7_witness :
    add_history_record [⟨some "EUR_USD_t1", "EUR", "USD", 1, "t1", "s"⟩]
      ⟨some "EUR_USD_t1", "EUR", "USD", 99, "t2", "s2"⟩
      = [⟨some "EUR_USD_t1", "EUR", "USD", 1, "t1", "s"⟩] :=
  c7_add_history_record_idempotent _ _ (by decide)
    ⟨⟨some "EUR_USD_t1", "EUR", "USD", 1, "t1", "s"⟩, by simp, rfl⟩

/-- Claim C10: a record whose `id` is absent, `None` or otherwise falsy
is appended unconditionally — duplicate detection is skipped, even when
a record with identical content is already present. -/
theorem c10_add_history_record_falsy_id (history : List HistoryRecord)
    (record : HistoryRecord) (h : truthyId record.id = false) :
    add_history_record history record = history ++ [record] := by
  unfold add_history_record
  rw [if_neg]
  simp [h]

/-- Witness for C10: a record with no id whose content is identical to
the single existing history entry is still appended, growing the
history to length two. -/
theorem c10_witness :
    add_history_record [⟨none, "EUR", "USD", 1, "t1", "s"⟩]
      ⟨none, "EUR", "USD", 1, "t1", "s"⟩
      = [⟨none, "EUR", "USD", 1, "t1", "s"⟩, ⟨none, "EUR", "USD", 1, "t1", "s"⟩] :=
  c10_add_history_record_falsy_id _ _ (by decide)


/-- Claim C5: when the cache relates FROM and TO only through the
reverse pair `TO_FROM` with a non-zero rate `r`, `get_rate` resolves by
inversion and returns rate `1/r` together with the reverse entry's
metadata. The hypotheses on `validate_currency_code` and
`CURRENCY_REGISTRY` state that both codes are canonical supported
currency codes. -/
theorem c5_get_rate_inversion (doc : CacheDoc) (from_code to_code : String)
    (e : PairEntry) (r now ttl : ℚ)
    (hvf : validate_currency_code from_code = .ok from_code)
    (hvt : validate_currency_code to_code = .ok to_code)
    (hrf : CURRENCY_REGISTRY.contains from_code = true)
    (hrt : CURRENCY_REGISTRY.contains to_code = true)
    (hne : from_code ≠ to_code)
    (hdir : alGet (from_code ++ "_" ++ to_code) doc.pairs = none)
    (hrev : alGet (to_code ++ "_" ++ from_code) doc.pairs = some e)
    (hrate : e.rate = r) (hr0 : r ≠ 0) :
    get_rate doc from_code to_code now ttl =
      .ok ⟨from_code, to_code, 1 / r, some r, e.updated_at, some e.source,
           is_rate_fresh now e.updated_at ttl⟩ := by
  unfold get_rate
  rw [hvf, hvt]
  simp only [hrf, hrt, Bool.true_eq_false, if_false]
  unfold get_rate_resolve
  rw [if_neg hne, hdir, hrev]
  dsimp only
  rw [hrate, if_pos hr0]

/-- Witness for C5 at the spec's own example: with only
`EUR_USD = 1.08 = 27/25` cached, `get_rate(USD, EUR)` returns
`1/1.08 = 25/27`. -/
theorem c5_witness :
    get_rate ⟨[("EUR_USD", ⟨27/25, .parsed 10, "x"⟩)], .absent, none⟩
      "USD" "EUR" 100 300 =
      .ok ⟨"USD", "EUR", 25/27, some (27/25), .parsed 10, some "x", true⟩ := by
  have h := c5_get_rate_inversion
    ⟨[("EUR_USD", ⟨27/25, .parsed 10, "x"⟩)], .absent, none⟩
    "USD" "EUR" ⟨27/25, .parsed 10, "x"⟩ (27/25) 100 300
    rfl rfl rfl rfl (by decide) rfl rfl rfl (by norm_num)
  rw [h]
  norm_num [is_rate_fresh, parse_datetime]

/-- Claim C6: when the only pair relating FROM and TO is the reverse
pair `TO_FROM` with rate `0` and triangulation finds no path
(`calculate_rate` yields nothing), `get_rate` fails with the
rate-unavailable condition naming both codes — the zero reverse rate is
never inverted and the failure is an ordinary error value, not a crash. -/
theorem c6_get_rate_zero_reverse_unavailable (doc : CacheDoc)
    (from_code to_code : String) (e : PairEntry) (now ttl : ℚ)
    (hvf : validate_currency_code from_code = .ok from_code)
    (hvt : validate_currency_code to_code = .ok to_code)
    (hrf : CURRENCY_REGISTRY.contains from_code = true)
    (hrt : CURRENCY_REGISTRY.contains to_code = true)
    (hne : from_code ≠ to_code)
    (hdir : alGet (from_code ++ "_" ++ to_code) doc.pairs = none)
    (hrev : alGet (to_code ++ "_" ++ from_code) doc.pairs = some e)
    (hz : e.rate = 0)
    (htri : calculate_rate from_code to_code doc.pairs = none) :
    get_rate doc from_code to_code now ttl =
      .error (.rateUnavailable from_code to_code) := by
  unfold get_rate
  rw [hvf, hvt]
  simp only [hrf, hrt, Bool.true_eq_false, if_false]
  unfold get_rate_resolve
  rw [if_neg hne, hdir, hrev]
  dsimp only
  rw [hz]
  simp only [ne_eq, not_true_eq_false, if_false]
  unfold get_rate_triangulated
  rw [htri]

/-- Witness for C6: with only `EUR_USD = 0` cached, `get_rate(USD, EUR)`
fails with the rate-unavailable condition naming USD and EUR. -/
theorem c6_witness :
    get_rate ⟨[("EUR_USD", ⟨0, .parsed 10, "x"⟩)], .absent, none⟩
      "USD" "EUR" 100 300 = .error (.rateUnavailable "USD" "EUR") :=
  c6_get_rate_zero_reverse_unavailable
    ⟨[("EUR_USD", ⟨0, .parsed 10, "x"⟩)], .absent, none⟩
    "USD" "EUR" ⟨0, .parsed 10, "x"⟩ 100 300
    rfl rfl rfl rfl (by decide) rfl rfl rfl rfl

/-- Counterexample to Claim C4 as stated: the cache holds the two legs
`EUR_USD = 0` and `GBP_USD = 2` (a non-zero TO_PIVOT rate), no direct
`EUR_GBP` pair and no reverse `GBP_EUR` pair, and neither code is the
pivot — so the claim requires `get_rate(EUR, GBP)` to return
`rate = 0 / 2` with `fresh = true`. Instead the lookup fails: the zero
`FROM_PIVOT` leg is falsy in `calculate_rate`'s
`if from_rate and to_rate and to_rate != 0` guard, so no rate is
produced and `ApiRequestError` is raised. -/
theorem c4_counterexample :
    alGet ("EUR" ++ "_USD")
        [("EUR_USD", (⟨0, .parsed 10, "x"⟩ : PairEntry)), ("GBP_USD", ⟨2, .parsed 10, "x"⟩)]
        = some ⟨0, .parsed 10, "x"⟩
    ∧ alGet ("GBP" ++ "_USD")
        [("EUR_USD", (⟨0, .parsed 10, "x"⟩ : PairEntry)), ("GBP_USD", ⟨2, .parsed 10, "x"⟩)]
        = some ⟨2, .parsed 10, "x"⟩
    ∧ (2 : ℚ) ≠ 0
    ∧ alGet ("EUR" ++ "_" ++ "GBP")
        [("EUR_USD", (⟨0, .parsed 10, "x"⟩ : PairEntry)), ("GBP_USD", ⟨2, .parsed 10, "x"⟩)] = none
    ∧ alGet ("GBP" ++ "_" ++ "EUR")
        [("EUR_USD", (⟨0, .parsed 10, "x"⟩ : PairEntry)), ("GBP_USD", ⟨2, .parsed 10, "x"⟩)] = none
    ∧ "EUR" ≠ "USD" ∧ "GBP" ≠ "USD"
    ∧ get_rate ⟨[("EUR_USD", ⟨0, .parsed 10, "x"⟩), ("GBP_USD", ⟨2, .parsed 10, "x"⟩)], .absent, none⟩
        "EUR" "GBP" 100 300 = .error (.rateUnavailable "EUR" "GBP") := by
  refine ⟨rfl, rfl, by norm_num, rfl, rfl, by decide, by decide, rfl⟩

/-- Claim C4 as amended: triangulation through the pivot (USD in this
code) additionally requires the `FROM_PIVOT` leg's rate to be non-zero
(both legs are subject to the same truthiness guard). Under that extra
hypothesis, `get_rate` returns `rate(FROM_PIVOT) / rate(TO_PIVOT)` and
reports `fresh = true` regardless of the legs' ages; and whenever
either leg is missing, the triangulation step yields no rate. -/
theorem c4_triangulation_amended :
    (∀ (doc : CacheDoc) (from_code to_code : String) (fe te : PairEntry) (now ttl : ℚ),
      validate_currency_code from_code = .ok from_code →
      validate_currency_code to_code = .ok to_code →
      CURRENCY_REGISTRY.contains from_code = true →
      CURRENCY_REGISTRY.contains to_code = true →
      pyUpper from_code = from_code →
      pyUpper to_code = to_code →
      from_code ≠ "USD" →
      to_code ≠ "USD" →
      alGet (from_code ++ "_" ++ to_code) doc.pairs = none →
      (∀ e, alGet (to_code ++ "_" ++ from_code) doc.pairs = some e → e.rate = 0) →
      alGet (from_code ++ "_USD") doc.pairs = some fe →
      alGet (to_code ++ "_USD") doc.pairs = some te →
      fe.rate ≠ 0 →
      te.rate ≠ 0 →
      ∃ res, get_rate doc from_code to_code now ttl = .ok res
        ∧ res.rate = fe.rate / te.rate ∧ res.fresh = true)
    ∧ (∀ (from_code to_code : String) (rates : List (String × PairEntry)),
      (alGet (from_code ++ "_USD") rates = none ∨ alGet (to_code ++ "_USD") rates = none) →
      triangulate_usd from_code to_code rates = none) := by
  constructor
  · intro doc f t fe te now ttl hvf hvt hrf hrt hpf hpt hfu htu hdir hrevz hf ht hfr htr
    by_cases hft : f = t
    · subst hft
      refine ⟨⟨f, f, 1, some 1, .parsed now, none, true⟩, ?_, ?_, rfl⟩
      · unfold get_rate
        rw [hvf]
        simp only [hrf, Bool.true_eq_false, if_false]
        unfold get_rate_resolve
        rw [if_pos rfl]
      · rw [hf] at ht
        have : fe = te := by injection ht
        rw [this, div_self htr]
    · refine ⟨⟨f, t, fe.rate / te.rate, some (1 / (fe.rate / te.rate)), doc.last_refresh,
        some "calculated", true⟩, ?_, rfl, rfl⟩
      unfold get_rate
      rw [hvf, hvt]
      simp only [hrf, hrt, Bool.true_eq_false, if_false]
      unfold get_rate_resolve
      rw [if_neg hft, hdir]
      have htri : calculate_rate f t doc.pairs = some (fe.rate / te.rate) := by
        unfold calculate_rate
        simp only [hpf, hpt]
        rw [if_neg hft, hdir]
        have htu_eq : triangulate_usd f t doc.pairs = some (fe.rate / te.rate) := by
          unfold triangulate_usd
          rw [if_pos ⟨hfu, htu⟩, hf, ht]
          dsimp only
          rw [if_pos ⟨hfr, htr⟩]
        cases hrev0 : alGet (t ++ "_" ++ f) doc.pairs with
        | none => exact htu_eq
        | some e =>
          have hez := hrevz e hrev0
          dsimp only
          rw [hez]
          simp only [ne_eq, not_true_eq_false, if_false]
          exact htu_eq
      have hgt : get_rate_triangulated doc f t =
          .ok ⟨f, t, fe.rate / te.rate, some (1 / (fe.rate / te.rate)), doc.last_refresh,
            some "calculated", true⟩ := by
        unfold get_rate_triangulated
        rw [htri]
        dsimp only
        rw [if_pos (div_ne_zero hfr htr)]
      cases hrev0 : alGet (t ++ "_" ++ f) doc.pairs with
      | none => exact hgt
      | some e =>
        have hez := hrevz e hrev0
        dsimp only
        rw [hez]
        simp only [ne_eq, not_true_eq_false, if_false]
        exact hgt
  · intro f t rates hmiss
    unfold triangulate_usd
    by_cases hcond : f ≠ "USD" ∧ t ≠ "USD"
    · rw [if_pos hcond]
      rcases hmiss with h | h
      · rw [h]
        cases alGet (t ++ "_USD") rates <;> rfl
      · rw [h]
        cases alGet (f ++ "_USD") rates <;> rfl
    · rw [if_neg hcond]

/-- Witness for the amended C4: with legs `EUR_USD = 2`, `GBP_USD = 4`
(both aged far beyond any TTL) and no direct or reverse pair,
`get_rate(EUR, GBP)` yields `rate = 2 / 4` with `fresh = true`; with
the `GBP_USD` leg absent, triangulation yields no rate. -/
theorem c4_witness :
    (∃ res, get_rate ⟨[("EUR_USD", ⟨2, .parsed 10, "x"⟩), ("GBP_USD", ⟨4, .parsed 10, "x"⟩)],
        .absent, none⟩ "EUR" "GBP" 1000000 300 = .ok res
      ∧ res.rate = (⟨2, .parsed 10, "x"⟩ : PairEntry).rate / (⟨4, .parsed 10, "x"⟩ : PairEntry).rate
      ∧ res.fresh = true)
    ∧ triangulate_usd "EUR" "GBP" [("EUR_USD", ⟨2, .parsed 10, "x"⟩)] = none := by
  constructor
  · exact c4_triangulation_amended.1
      ⟨[("EUR_USD", ⟨2, .parsed 10, "x"⟩), ("GBP_USD", ⟨4, .parsed 10, "x"⟩)], .absent, none⟩
      "EUR" "GBP" ⟨2, .parsed 10, "x"⟩ ⟨4, .parsed 10, "x"⟩ 1000000 300
      rfl rfl rfl rfl rfl rfl (by decide) (by decide) rfl
      (fun e he => by cases he) rfl rfl (by norm_num) (by norm_num)
  · exact c4_triangulation_amended.2 "EUR" "GBP" [("EUR_USD", ⟨2, .parsed 10, "x"⟩)]
      (Or.inr rfl)

/-- Lookup after an in-place insert of the same key finds the new value. -/
theorem alGet_alInsert_self {α : Type} (k : String) (v : α) (d : List (String × α)) :
    alGet k (alInsert k v d) = some v := by
  induction d with
  | nil => simp [alGet, alInsert]
  | cons hd tl ih =>
    by_cases h : hd.1 = k
    · simp [alInsert, alGet, h]
    · simp only [alInsert]
      rw [if_neg h]
      simp only [alGet]
      rw [if_neg h]
      exact ih

/-- Lookup of a different key is unaffected by an insert. -/
theorem alGet_alInsert_ne {α : Type} (k k' : String) (v : α) (d : List (String × α))
    (h : k' ≠ k) : alGet k (alInsert k' v d) = alGet k d := by
  induction d with
  | nil => simp [alGet, alInsert, h]
  | cons hd tl ih =>
    by_cases h2 : hd.1 = k'
    · simp only [alInsert]
      rw [if_pos h2]
      simp only [alGet]
      rw [if_neg h, if_neg (h2 ▸ h)]
    · simp only [alInsert]
      rw [if_neg h2]
      simp only [alGet]
      by_cases h3 : hd.1 = k
      · rw [if_pos h3, if_pos h3]
      · rw [if_neg h3, if_neg h3]
        exact ih

/-- Lookup of a key that occurs in no entry fails. -/
theorem alGet_eq_none_of_not_mem {α : Type} (k : String) (l : List (String × α))
    (h : k ∉ l.map Prod.fst) : alGet k l = none := by
  induction l with
  | nil => rfl
  | cons hd tl ih =>
    simp only [List.map_cons, List.mem_cons] at h
    push_neg at h
    simp only [alGet]
    rw [if_neg (fun he => h.1 he.symm)]
    exact ih h.2

/-- Keys outside the written rate map are untouched by the
`save_rates_cache` update loop. -/
theorem alGet_cacheFold_not_mem (rates : List (String × ℚ)) (pairs : List (String × PairEntry))
    (now : ℚ) (source : String) (k : String) (h : alGet k rates = none) :
    alGet k (rates.foldl (fun ps pr => alInsert pr.1 ⟨pr.2, .parsed now, source⟩ ps) pairs)
      = alGet k pairs := by
  induction rates generalizing pairs with
  | nil => rfl
  | cons hd tl ih =>
    simp only [alGet] at h
    by_cases hk : hd.1 = k
    · rw [if_pos hk] at h
      exact absurd h (by simp)
    · rw [if_neg hk] at h
      simp only [List.foldl_cons]
      rw [ih _ h, alGet_alInsert_ne _ _ _ _ hk]

/-- Keys inside the written rate map end up with the fresh entry after
the `save_rates_cache` update loop (rate maps are Python dicts, hence
the no-duplicate-keys hypothesis). -/
theorem alGet_cacheFold_mem (rates : List (String × ℚ)) (pairs : List (String × PairEntry))
    (now : ℚ) (source : String) (k : String) (r : ℚ)
    (hnd : (rates.map Prod.fst).Nodup) (h : alGet k rates = some r) :
    alGet k (rates.foldl (fun ps pr => alInsert pr.1 ⟨pr.2, .parsed now, source⟩ ps) pairs)
      = some ⟨r, .parsed now, source⟩ := by
  induction rates generalizing pairs with
  | nil => exact absurd h (by simp [alGet])
  | cons hd tl ih =>
    simp only [List.map_cons, List.nodup_cons] at hnd
    simp only [alGet] at h
    by_cases hk : hd.1 = k
    · rw [if_pos hk] at h
      have hr : hd.2 = r := by injection h
      have htl : alGet k tl = none :=
        alGet_eq_none_of_not_mem _ _ (by rw [← hk]; exact hnd.1)
      simp only [List.foldl_cons]
      rw [alGet_cacheFold_not_mem _ _ _ _ _ htl, hk, hr, alGet_alInsert_self]
    · rw [if_neg hk] at h
      simp only [List.foldl_cons]
      exact ih _ hnd.2 h

/-- Claim C8: `save_rates_cache` merges into the existing pair set
rather than replacing it — every cached pair whose key is not in the
merged rate map keeps its previous entry (rate, `updated_at` and
`source` unchanged), while every key of the rate map is stored with its
new rate, the current timestamp and the writer's label. -/
theorem c8_save_rates_cache_merge (cache : CacheDoc) (rates : List (String × ℚ))
    (now : ℚ) (source : String) (hnd : (rates.map Prod.fst).Nodup) :
    (∀ k, alGet k rates = none →
      alGet k (save_rates_cache cache rates now source).pairs = alGet k cache.pairs)
    ∧ (∀ k r, alGet k rates = some r →
      alGet k (save_rates_cache cache rates now source).pairs
        = some ⟨r, .parsed now, source⟩) := by
  constructor
  · intro k h
    exact alGet_cacheFold_not_mem rates cache.pairs now source k h
  · intro k r h
    exact alGet_cacheFold_mem rates cache.pairs now source k r hnd h

/-- Witness for C8: writing `EUR_USD = 2` over a cache holding only
`BTC_USD` leaves the old `BTC_USD` entry byte-for-byte intact and
stores `EUR_USD` with the new timestamp and source. -/
theorem c8_witness :
    alGet "BTC_USD" (save_rates_cache
        ⟨[("BTC_USD", ⟨3, .parsed 1, "old"⟩)], .parsed 1, some "old"⟩
        [("EUR_USD", 2)] 9 "ParserService").pairs = some ⟨3, .parsed 1, "old"⟩
    ∧ alGet "EUR_USD" (save_rates_cache
        ⟨[("BTC_USD", ⟨3, .parsed 1, "old"⟩)], .parsed 1, some "old"⟩
        [("EUR_USD", 2)] 9 "ParserService").pairs = some ⟨2, .parsed 9, "ParserService"⟩ := by
  constructor
  · have h := (c8_save_rates_cache_merge
      ⟨[("BTC_USD", ⟨3, .parsed 1, "old"⟩)], .parsed 1, some "old"⟩
      [("EUR_USD", 2)] 9 "ParserService" (by simp)).1 "BTC_USD" rfl
    rw [h]
    rfl
  · exact (c8_save_rates_cache_merge
      ⟨[("BTC_USD", ⟨3, .parsed 1, "old"⟩)], .parsed 1, some "old"⟩
      [("EUR_USD", 2)] 9 "ParserService" (by simp)).2 "EUR_USD" 2 rfl

/-- Clients that are unselected, fail, or return an empty map
contribute nothing to the merged `all_rates` of the update loop. -/
theorem loop_all_rates_nil (filter : Option (List String)) (clients : List ClientSpec)
    (acc : LoopAcc)
    (h : ∀ c ∈ clients, clientSelected filter c = true →
      c.fetch = Except.ok [] ∨ exceptIsOk c.fetch = false) :
    (clients.foldl (processClient filter) acc).all_rates = acc.all_rates := by
  induction clients generalizing acc with
  | nil => rfl
  | cons hd tl ih =>
    simp only [List.foldl_cons]
    rw [ih _ (fun c hc hs => h c (List.mem_cons_of_mem hd hc) hs)]
    unfold processClient
    by_cases hsel : clientSelected filter hd = true
    · rw [if_pos hsel]
      rcases h hd (List.mem_cons_self hd tl) hsel with hok | herr
      · rw [hok]
        rfl
      · cases hfetch : hd.fetch with
        | ok rates => rw [hfetch] at herr; exact absurd herr (by simp [exceptIsOk])
        | error msg => rfl
    · rw [if_neg hsel]

/-- The error list of the update loop stays empty exactly when every
selected client's fetch succeeded. -/
theorem loop_errors_nil_iff (filter : Option (List String)) (clients : List ClientSpec)
    (acc : LoopAcc) :
    (clients.foldl (processClient filter) acc).errors = [] ↔
      (acc.errors = [] ∧ ∀ c ∈ clients, clientSelected filter c = true →
        exceptIsOk c.fetch = true) := by
  induction clients generalizing acc with
  | nil => simp
  | cons hd tl ih =>
    simp only [List.foldl_cons]
    rw [ih]
    unfold processClient
    by_cases hsel : clientSelected filter hd = true
    · rw [if_pos hsel]
      cases hfetch : hd.fetch with
      | ok rates =>
        simp only [List.mem_cons]
        constructor
        · rintro ⟨ha, hrest⟩
          refine ⟨ha, ?_⟩
          rintro c (rfl | hc) hs
          · rw [hfetch]; rfl
          · exact hrest c hc hs
        · rintro ⟨ha, hall⟩
          exact ⟨ha, fun c hc hs => hall c (Or.inr hc) hs⟩
      | error msg =>
        simp only [List.mem_cons, List.append_eq_nil]
        constructor
        · rintro ⟨⟨_, hfalse⟩, _⟩
          exact absurd hfalse (by simp)
        · rintro ⟨ha, hall⟩
          have := hall hd (Or.inl rfl) hsel
          rw [hfetch] at this
          exact absurd this (by simp [exceptIsOk])
    · rw [if_neg hsel]
      simp only [List.mem_cons]
      constructor
      · rintro ⟨ha, hrest⟩
        refine ⟨ha, ?_⟩
        rintro c (rfl | hc) hs
        · exact absurd hs hsel
        · exact hrest c hc hs
      · rintro ⟨ha, hall⟩
        exact ⟨ha, fun c hc hs => hall c (Or.inr hc) hs⟩

/-- The boolean success flag of the update loop stays `True` exactly
when every selected client's fetch succeeded. -/
theorem loop_ok_iff (filter : Option (List String)) (clients : List ClientSpec)
    (acc : LoopAcc) :
    (clients.foldl (processClient filter) acc).ok = true ↔
      (acc.ok = true ∧ ∀ c ∈ clients, clientSelected filter c = true →
        exceptIsOk c.fetch = true) := by
  induction clients generalizing acc with
  | nil => simp
  | cons hd tl ih =>
    simp only [List.foldl_cons]
    rw [ih]
    unfold processClient
    by_cases hsel : clientSelected filter hd = true
    · rw [if_pos hsel]
      cases hfetch : hd.fetch with
      | ok rates =>
        simp only [List.mem_cons]
        constructor
        · rintro ⟨ha, hrest⟩
          refine ⟨ha, ?_⟩
          rintro c (rfl | hc) hs
          · rw [hfetch]; rfl
          · exact hrest c hc hs
        · rintro ⟨ha, hall⟩
          exact ⟨ha, fun c hc hs => hall c (Or.inr hc) hs⟩
      | error msg =>
        simp only [List.mem_cons]
        constructor
        · rintro ⟨hfalse, _⟩
          exact absurd hfalse (by simp)
        · rintro ⟨ha, hall⟩
          have := hall hd (Or.inl rfl) hsel
          rw [hfetch] at this
          exact absurd this (by simp [exceptIsOk])
    · rw [if_neg hsel]
      simp only [List.mem_cons]
      constructor
      · rintro ⟨ha, hrest⟩
        refine ⟨ha, ?_⟩
        rintro c (rfl | hc) hs
        · exact absurd hs hsel
        · exact hrest c hc hs
      · rintro ⟨ha, hall⟩
        exact ⟨ha, fun c hc hs => hall c (Or.inr hc) hs⟩

/-- Counterexample to Claim C1 as stated: a cycle whose single selected
client succeeds but returns an empty rate map produces no rates at all,
yet `run_update` classifies it as `success = True` rather than the
`failure` the claim requires for a zero-rate cycle. -/
theorem c1_counterexample :
    (run_update [⟨"CoinGecko", Except.ok []⟩] none ⟨⟨[], .absent, none⟩, []⟩ 0 "T").1.total_rates = 0
    ∧ (run_update [⟨"CoinGecko", Except.ok []⟩] none ⟨⟨[], .absent, none⟩, []⟩ 0 "T").1.success
        = SuccessFlag.strue
    ∧ SuccessFlag.strue ≠ SuccessFlag.sfalse := by
  refine ⟨rfl, rfl, by decide⟩

/-- Claim C1 as amended to match the code: `run_update` reports
`success = True` exactly when every selected client succeeded — even
when zero rates were produced (empty filter selection or all-empty
maps); `"partial"` exactly when at least one rate was produced and at
least one selected client failed; and `False` exactly when at least one
selected client failed and no rate was produced. -/
theorem c1_run_update_classification (clients : List ClientSpec)
    (filter : Option (List String)) (st : StorageState) (now : ℚ) (nowIso : String) :
    ((run_update clients filter st now nowIso).1.success = SuccessFlag.strue ↔
      (∀ c ∈ clients, clientSelected filter c = true → exceptIsOk c.fetch = true))
    ∧ ((run_update clients filter st now nowIso).1.success = SuccessFlag.spartial ↔
      ((run_update clients filter st now nowIso).1.total_rates ≠ 0
        ∧ ¬(∀ c ∈ clients, clientSelected filter c = true → exceptIsOk c.fetch = true)))
    ∧ ((run_update clients filter st now nowIso).1.success = SuccessFlag.sfalse ↔
      ((run_update clients filter st now nowIso).1.total_rates = 0
        ∧ ¬(∀ c ∈ clients, clientSelected filter c = true → exceptIsOk c.fetch = true))) := by
  have herr := loop_errors_nil_iff filter clients ⟨[], [], [], true⟩
  have hok := loop_ok_iff filter clients ⟨[], [], [], true⟩
  simp only [true_and] at herr hok
  by_cases hA : ∀ c ∈ clients, clientSelected filter c = true → exceptIsOk c.fetch = true
  · have he : (runClients clients filter).errors = [] := herr.mpr hA
    have ho : (runClients clients filter).ok = true := hok.mpr hA
    simp [run_update, he, ho, hA]
    exact ⟨hA, fun _ => hA, fun _ => hA⟩
  · have he : ¬(runClients clients filter).errors = [] := fun h0 => hA (herr.mp h0)
    have ho : (runClients clients filter).ok = false := by
      cases h0 : (runClients clients filter).ok
      · rfl
      · exact absurd (hok.mp h0) hA
    by_cases hE : (runClients clients filter).all_rates.isEmpty
    · simp [run_update, he, ho, hA, hE, List.isEmpty_iff.mp hE]
    · have hlen : (runClients clients filter).all_rates.length ≠ 0 := by
        intro h0
        exact hE (List.isEmpty_iff.mpr (List.length_eq_zero.mp h0))
      have hne : (runClients clients filter).all_rates ≠ [] := by
        intro h0
        rw [h0] at hE
        exact hE rfl
      simp [run_update, he, ho, hA, hE, hlen, hne]

/-- Claim C2: a cycle in which every selected client either fails or
returns an empty rate map performs no write — the cache document and
the history log after `run_update` are exactly the storage state from
before the cycle. -/
theorem c2_run_update_no_write (clients : List ClientSpec) (filter : Option (List String))
    (st : StorageState) (now : ℚ) (nowIso : String)
    (h : ∀ c ∈ clients, clientSelected filter c = true →
      c.fetch = Except.ok [] ∨ exceptIsOk c.fetch = false) :
    (run_update clients filter st now nowIso).2 = st := by
  have hall : (runClients clients filter).all_rates = [] :=
    loop_all_rates_nil filter clients ⟨[], [], [], true⟩ h
  simp [run_update, hall]

/-- Witness for C2: with both configured sources failing, a non-empty
pre-existing cache and history come out of the cycle untouched. -/
theorem c2_witness :
    (run_update [⟨"CoinGecko", Except.error "timeout"⟩, ⟨"ExchangeRate-API", Except.error "HTTP 429"⟩]
      none ⟨⟨[("BTC_USD", ⟨3, .parsed 1, "old"⟩)], .parsed 1, some "old"⟩,
        [⟨some "h1", "BTC", "USD", 3, "t", "s"⟩]⟩ 9 "T").2
      = ⟨⟨[("BTC_USD", ⟨3, .parsed 1, "old"⟩)], .parsed 1, some "old"⟩,
        [⟨some "h1", "BTC", "USD", 3, "t", "s"⟩]⟩ := by
  apply c2_run_update_no_write
  intro c hc hs
  fin_cases hc <;> simp [exceptIsOk]
